import Mathlib

/-!
Verification of the `polynomial_multiplication` C kernels.

Shallow embedding conventions:

* A C `int` is modelled as a mathematical integer together with explicit
  32-bit two's-complement wraparound (`wrap`) applied at every arithmetic
  operation, matching the specification's declared "fixed-width signed
  integers; overflow wraps per native machine-integer arithmetic".
* A coefficient buffer is a total function `Nat → Int` (the values stored at
  each index) together with an explicit length argument, mirroring the C
  pointer-plus-length convention.  Reads outside the declared length are
  reads of whatever the function holds there, which models reading adjacent
  memory.
* `size_t` index arithmetic wraps modulo `2 ^ 64` (`ssub` is the subtraction
  the source performs on `size_t` values).
* Each C `for` loop becomes a `List.foldl` over the exact list of index
  values the loop visits; in-place mutation of the output buffer becomes a
  pointwise functional update (`upd`).
-/

namespace PolyMul

/-- 32-bit two's-complement wraparound: the value of a C `int` holding the
mathematical integer `x`. -/
def wrap (x : Int) : Int := (x + 2147483648) % 4294967296 - 2147483648

/-- C `int` addition (wraps on overflow). -/
def i32add (a b : Int) : Int := wrap (a + b)

/-- C `int` multiplication (wraps on overflow). -/
def i32mul (a b : Int) : Int := wrap (a * b)

/-- `size_t` subtraction `n - m`, wrapping modulo `2 ^ 64`. -/
def ssub (n m : Nat) : Nat := if m ≤ n then n - m else 18446744073709551616 - (m - n)

/-- Functional update of a buffer: `P[i] = v`. -/
def upd (P : Nat → Int) (i : Nat) (v : Int) : Nat → Int := fun k => if k = i then v else P k

/-- An inner accumulation loop: for each `m` in `L`, perform `P[n] += f m`
(with C `int` addition). -/
def addtoLoop (n : Nat) (f : Nat → Int) (L : List Nat) (P : Nat → Int) : Nat → Int :=
  L.foldl (fun Q m => upd Q n (i32add (Q n) (f m))) P

/-- Region 1 of `Naive_Product` (`src/naive_product.c`, lines 93-99):
for `n = 0 .. A_deg`, `P[n] = A[0]*B[n]`, then `P[n] += A[m]*B[n-m]` for
`m = 1 .. n`. -/
def NP_region1 (A B : Nat → Int) (A_deg : Nat) (P : Nat → Int) : Nat → Int :=
  (List.range (A_deg + 1)).foldl
    (fun Q n =>
      addtoLoop n (fun m => i32mul (A m) (B (ssub n m))) (List.range' 1 n)
        (upd Q n (i32mul (A 0) (B n)))) P

/-- Region 2 of `Naive_Product` (lines 112-118): for `n = A_deg+1 .. B_deg`,
`P[n] = A[0]*B[n]`, then `P[n] += A[m]*B[n-m]` for `m = 1 .. A_deg`. -/
def NP_region2 (A B : Nat → Int) (A_deg B_deg : Nat) (P : Nat → Int) : Nat → Int :=
  (List.range' (A_deg + 1) (B_deg - A_deg)).foldl
    (fun Q n =>
      addtoLoop n (fun m => i32mul (A m) (B (ssub n m))) (List.range' 1 A_deg)
        (upd Q n (i32mul (A 0) (B n)))) P

/-- Region 3 of `Naive_Product` (lines 131-138): for
`n = B_deg+1 .. A_deg+B_deg`, `m = n - B_deg`, `P[n] = A[m]*B[B_deg]`, then
`P[n] += A[m]*B[n-m]` for `m = n-B_deg+1 .. A_deg`. -/
def NP_region3 (A B : Nat → Int) (A_deg B_deg : Nat) (P : Nat → Int) : Nat → Int :=
  (List.range' (B_deg + 1) A_deg).foldl
    (fun Q n =>
      addtoLoop n (fun m => i32mul (A m) (B (ssub n m)))
        (List.range' (n - B_deg + 1) (A_deg - (n - B_deg)))
        (upd Q n (i32mul (A (n - B_deg)) (B B_deg)))) P

/-- Embedding of `Naive_Product` from `src/naive_product.c`: the three
region loops run in order on the output buffer. -/
def Naive_Product (P : Nat → Int) (A : Nat → Int) (A_len : Nat)
    (B : Nat → Int) (B_len : Nat) : Nat → Int :=
  NP_region3 A B (A_len - 1) (B_len - 1)
    (NP_region2 A B (A_len - 1) (B_len - 1)
      (NP_region1 A B (A_len - 1) P))

/-- Region 1 of `Naive_AddTo_Sum_Product` (`src/naive_addto_sum_product.c`,
lines 100-102): for `n = 0 .. A_deg`, `P[n] += (A0[m]+A1[m])*B[n-m]` for
`m = 0 .. n` (pure accumulation, no seed assignment). -/
def SP_region1 (A0 A1 B : Nat → Int) (A_deg : Nat) (P : Nat → Int) : Nat → Int :=
  (List.range (A_deg + 1)).foldl
    (fun Q n =>
      addtoLoop n (fun m => i32mul (i32add (A0 m) (A1 m)) (B (ssub n m)))
        (List.range (n + 1)) Q) P

/-- Region 2 of `Naive_AddTo_Sum_Product` (lines 115-121): for
`n = A_deg+1 .. B_deg`, `P[n] = (A0[0]+A1[0])*B[n]` (assignment!), then
`P[n] += (A0[m]+A1[m])*B[n-m]` for `m = 1 .. A_deg`. -/
def SP_region2 (A0 A1 B : Nat → Int) (A_deg B_deg : Nat) (P : Nat → Int) : Nat → Int :=
  (List.range' (A_deg + 1) (B_deg - A_deg)).foldl
    (fun Q n =>
      addtoLoop n (fun m => i32mul (i32add (A0 m) (A1 m)) (B (ssub n m)))
        (List.range' 1 A_deg)
        (upd Q n (i32mul (i32add (A0 0) (A1 0)) (B n)))) P

/-- Region 3 of `Naive_AddTo_Sum_Product` (lines 134-141): for
`n = B_deg+1 .. A_deg+B_deg`, `m = n - B_deg`,
`P[n] = (A0[m]+A1[m])*B[B_deg]` (assignment!), then
`P[n] += (A0[m]+A1[m])*B[n-m]` for `m = n-B_deg+1 .. A_deg`. -/
def SP_region3 (A0 A1 B : Nat → Int) (A_deg B_deg : Nat) (P : Nat → Int) : Nat → Int :=
  (List.range' (B_deg + 1) A_deg).foldl
    (fun Q n =>
      addtoLoop n (fun m => i32mul (i32add (A0 m) (A1 m)) (B (ssub n m)))
        (List.range' (n - B_deg + 1) (A_deg - (n - B_deg)))
        (upd Q n (i32mul (i32add (A0 (n - B_deg)) (A1 (n - B_deg))) (B B_deg)))) P

/-- Embedding of `Naive_AddTo_Sum_Product` from
`src/naive_addto_sum_product.c`: the three region loops run in order.
Region 1 accumulates into `P`; regions 2 and 3 overwrite their first term,
exactly as the source does. -/
def Naive_AddTo_Sum_Product (P : Nat → Int) (A0 A1 : Nat → Int) (A_len : Nat)
    (B : Nat → Int) (B_len : Nat) : Nat → Int :=
  SP_region3 A0 A1 B (A_len - 1) (B_len - 1)
    (SP_region2 A0 A1 B (A_len - 1) (B_len - 1)
      (SP_region1 A0 A1 B (A_len - 1) P))

/-- Embedding of `Scaled_AddTo`: `P[n] += scalar * A[n]` for `n = 0 .. len-1`. -/
def Scaled_AddTo (P : Nat → Int) (A : Nat → Int) (len : Nat) (scalar : Int) : Nat → Int :=
  (List.range len).foldl (fun Q n => upd Q n (i32add (Q n) (i32mul scalar (A n)))) P

/-- The convolution sum of the specification: coefficient `n` of the Cauchy
product of `A` (length `A_len`) and `B` (length `B_len`), over unbounded
integers. -/
def convSum (A : Nat → Int) (A_len : Nat) (B : Nat → Int) (B_len : Nat) (n : Nat) : Int :=
  ∑ i ∈ Finset.range A_len, ∑ j ∈ Finset.range B_len, if i + j = n then A i * B j else 0

/-! ### Arithmetic lemmas about 32-bit wraparound -/

lemma wrap_emod (x : Int) : wrap x % 4294967296 = x % 4294967296 := by
  unfold wrap; omega

lemma wrap_congr {x y : Int} (h : x % 4294967296 = y % 4294967296) : wrap x = wrap y := by
  unfold wrap; omega

lemma wrap_wrap (x : Int) : wrap (wrap x) = wrap x := wrap_congr (wrap_emod x)

lemma wrap_add_left (x y : Int) : wrap (wrap x + y) = wrap (x + y) := by
  apply wrap_congr
  have h := wrap_emod x
  omega

lemma wrap_add_right (x y : Int) : wrap (x + wrap y) = wrap (x + y) := by
  apply wrap_congr
  have h := wrap_emod y
  omega

lemma wrap_mul_left (x y : Int) : wrap (wrap x * y) = wrap (x * y) :=
  wrap_congr (Int.ModEq.mul_right y (wrap_emod x))

lemma wrap_add_middle (x y z : Int) : wrap (x + wrap y + z) = wrap (x + y + z) := by
  apply wrap_congr
  have h := wrap_emod y
  omega

lemma wrap_eq_zero_iff (x : Int) : wrap x = 0 ↔ (4294967296 : Int) ∣ x := by
  unfold wrap; omega

/-! ### Buffer update and loop lemmas -/

lemma upd_same (P : Nat → Int) (i : Nat) (v : Int) : upd P i v i = v := by
  simp [upd]

lemma upd_ne (P : Nat → Int) (i : Nat) (v : Int) {k : Nat} (h : k ≠ i) :
    upd P i v k = P k := by
  simp [upd, h]

lemma addtoLoop_nil (n : Nat) (f : Nat → Int) (P : Nat → Int) :
    addtoLoop n f [] P = P := rfl

lemma addtoLoop_cons (n : Nat) (f : Nat → Int) (m : Nat) (L : List Nat) (P : Nat → Int) :
    addtoLoop n f (m :: L) P = addtoLoop n f L (upd P n (i32add (P n) (f m))) := rfl

lemma addtoLoop_ne (n : Nat) (f : Nat → Int) (L : List Nat) (P : Nat → Int)
    {k : Nat} (h : k ≠ n) : addtoLoop n f L P k = P k := by
  induction L generalizing P with
  | nil => rfl
  | cons m L ih =>
    rw [addtoLoop_cons, ih]
    exact upd_ne _ _ _ h

lemma addtoLoop_val_cons (n : Nat) (f g : Nat → Int) (hg : ∀ m, f m = wrap (g m)) :
    ∀ (L : List Nat) (m0 : Nat) (P : Nat → Int),
      addtoLoop n f (m0 :: L) P n = wrap (P n + ((m0 :: L).map g).sum) := by
  intro L
  induction L with
  | nil =>
    intro m0 P
    rw [addtoLoop_cons, addtoLoop_nil, upd_same, i32add, hg, wrap_add_right]
    simp
  | cons m1 L ih =>
    intro m0 P
    rw [addtoLoop_cons, ih]
    rw [upd_same, i32add, hg, wrap_add_left, wrap_add_middle]
    congr 1
    simp only [List.map_cons, List.sum_cons]
    ring

lemma addtoLoop_upd_val (n : Nat) (f g : Nat → Int) (hg : ∀ m, f m = wrap (g m))
    (t0 : Int) (L : List Nat) (Q : Nat → Int) :
    addtoLoop n f L (upd Q n (wrap t0)) n = wrap (t0 + (L.map g).sum) := by
  cases L with
  | nil => rw [addtoLoop_nil, upd_same]; simp
  | cons m L =>
    rw [addtoLoop_val_cons n f g hg, upd_same, wrap_add_left]

/-- Characterization of a left fold whose body, at outer index `n`, only
changes the buffer at index `n`, turning the value there from `x` into
`φ n x`. -/
lemma foldl_char (body : (Nat → Int) → Nat → Nat → Int) (φ : Nat → Int → Int) :
    ∀ (L : List Nat), L.Nodup →
      (∀ Q n k, n ∈ L → k ≠ n → body Q n k = Q k) →
      (∀ Q n, n ∈ L → body Q n n = φ n (Q n)) →
      ∀ (P : Nat → Int) (k : Nat),
        L.foldl body P k = if k ∈ L then φ k (P k) else P k := by
  intro L
  induction L with
  | nil => intro _ _ _ P k; simp
  | cons n L ih =>
    intro hnd hne hval P k
    have hn : n ∉ L := (List.nodup_cons.mp hnd).1
    have hndL : L.Nodup := (List.nodup_cons.mp hnd).2
    have hneL : ∀ Q a b, a ∈ L → b ≠ a → body Q a b = Q a → True := fun _ _ _ _ _ _ => trivial
    rw [List.foldl_cons]
    rw [ih hndL (fun Q a b ha hb => hne Q a b (List.mem_cons_of_mem n ha) hb)
      (fun Q a ha => hval Q a (List.mem_cons_of_mem n ha))]
    by_cases hk : k = n
    · subst hk
      simp only [hn, if_neg hn]
      rw [hval P k (List.mem_cons_self k L)]
      simp
    · rw [hne P n k (List.mem_cons_self n L) hk]
      by_cases hkL : k ∈ L
      · simp [hkL, hk]
      · simp [hkL, hk]

/-! ### Index arithmetic and sum bridging -/

lemma ssub_of_le {n m : Nat} (h : m ≤ n) : ssub n m = n - m := by
  simp [ssub, h]

lemma ssub_zero (n : Nat) : ssub n 0 = n := by
  simp [ssub]

lemma range'_cons (s n : Nat) : List.range' s (n + 1) = s :: List.range' (s + 1) n := rfl

lemma range_cons_range' (n : Nat) : List.range (n + 1) = 0 :: List.range' 1 n := by
  rw [List.range_eq_range']; rfl

lemma sum_map_range' (f : Nat → Int) : ∀ (len s : Nat),
    ((List.range' s len).map f).sum = ∑ i ∈ Finset.Ico s (s + len), f i := by
  intro len
  induction len with
  | zero => intro s; simp
  | succ l ih =>
    intro s
    rw [range'_cons, List.map_cons, List.sum_cons, ih (s + 1)]
    have h : s + 1 + l = s + (l + 1) := by omega
    rw [h, Finset.sum_eq_sum_Ico_succ_bot (show s < s + (l + 1) by omega) f]

/-- The convolution sum restricted to its window of valid indices: for
coefficient `n`, the valid `i` range is `[n - B_deg, min n A_deg]`. -/
lemma convSum_eq_Ico (A : Nat → Int) (A_len : Nat) (B : Nat → Int) (B_len : Nat) (n : Nat)
    (hA : 1 ≤ A_len) (hB : 1 ≤ B_len) :
    convSum A A_len B B_len n =
      ∑ i ∈ Finset.Ico (n - (B_len - 1)) (min n (A_len - 1) + 1), A i * B (n - i) := by
  unfold convSum
  have hinner : ∀ i, (∑ j ∈ Finset.range B_len, if i + j = n then A i * B j else 0)
      = if i ≤ n ∧ n - i < B_len then A i * B (n - i) else 0 := by
    intro i
    by_cases hi : i ≤ n
    · have h1 : (∑ j ∈ Finset.range B_len, if i + j = n then A i * B j else 0)
          = ∑ j ∈ Finset.range B_len, if j = n - i then A i * B j else 0 := by
        apply Finset.sum_congr rfl
        intro j _
        apply if_congr _ rfl rfl
        omega
      rw [h1, Finset.sum_ite_eq' (Finset.range B_len) (n - i) (fun j => A i * B j)]
      simp only [Finset.mem_range]
      by_cases h2 : n - i < B_len
      · rw [if_pos h2, if_pos ⟨hi, h2⟩]
      · rw [if_neg h2, if_neg (by omega)]
    · rw [if_neg (by omega), Finset.sum_eq_zero]
      intro j _
      rw [if_neg (by omega)]
  rw [Finset.sum_congr rfl (fun i _ => hinner i), ← Finset.sum_filter]
  apply Finset.sum_congr _ (fun i _ => rfl)
  ext i
  simp only [Finset.mem_filter, Finset.mem_range, Finset.mem_Ico]
  omega

/-! ### Region characterizations for `Naive_Product` -/

lemma NP_region1_char (A B : Nat → Int) (A_deg : Nat) (P : Nat → Int) (k : Nat) :
    NP_region1 A B A_deg P k =
      if k < A_deg + 1 then
        wrap (((List.range (k + 1)).map (fun m => A m * B (ssub k m))).sum)
      else P k := by
  have hne : ∀ (Q : Nat → Int) (n k2 : Nat), n ∈ List.range (A_deg + 1) → k2 ≠ n →
      addtoLoop n (fun m => i32mul (A m) (B (ssub n m))) (List.range' 1 n)
        (upd Q n (i32mul (A 0) (B n))) k2 = Q k2 := by
    intro Q n k2 _ hk2
    rw [addtoLoop_ne _ _ _ _ hk2, upd_ne _ _ _ hk2]
  have hval : ∀ (Q : Nat → Int) (n : Nat), n ∈ List.range (A_deg + 1) →
      addtoLoop n (fun m => i32mul (A m) (B (ssub n m))) (List.range' 1 n)
        (upd Q n (i32mul (A 0) (B n))) n
      = wrap (((List.range (n + 1)).map (fun m => A m * B (ssub n m))).sum) := by
    intro Q n _
    have h0 : i32mul (A 0) (B n) = wrap (A 0 * B n) := rfl
    rw [h0, addtoLoop_upd_val n (fun m => i32mul (A m) (B (ssub n m)))
      (fun m => A m * B (ssub n m)) (fun m => rfl) (A 0 * B n)]
    congr 1
    rw [range_cons_range']
    simp only [List.map_cons, List.sum_cons, ssub_zero]
  have h := foldl_char _
    (fun n _ => wrap (((List.range (n + 1)).map (fun m => A m * B (ssub n m))).sum))
    (List.range (A_deg + 1)) (List.nodup_range _) hne hval P k
  simp only [List.mem_range] at h
  exact h

lemma NP_region2_char (A B : Nat → Int) (A_deg B_deg : Nat) (P : Nat → Int) (k : Nat) :
    NP_region2 A B A_deg B_deg P k =
      if A_deg + 1 ≤ k ∧ k < A_deg + 1 + (B_deg - A_deg) then
        wrap (((List.range (A_deg + 1)).map (fun m => A m * B (ssub k m))).sum)
      else P k := by
  have hne : ∀ (Q : Nat → Int) (n k2 : Nat), n ∈ List.range' (A_deg + 1) (B_deg - A_deg) →
      k2 ≠ n →
      addtoLoop n (fun m => i32mul (A m) (B (ssub n m))) (List.range' 1 A_deg)
        (upd Q n (i32mul (A 0) (B n))) k2 = Q k2 := by
    intro Q n k2 _ hk2
    rw [addtoLoop_ne _ _ _ _ hk2, upd_ne _ _ _ hk2]
  have hval : ∀ (Q : Nat → Int) (n : Nat), n ∈ List.range' (A_deg + 1) (B_deg - A_deg) →
      addtoLoop n (fun m => i32mul (A m) (B (ssub n m))) (List.range' 1 A_deg)
        (upd Q n (i32mul (A 0) (B n))) n
      = wrap (((List.range (A_deg + 1)).map (fun m => A m * B (ssub n m))).sum) := by
    intro Q n _
    have h0 : i32mul (A 0) (B n) = wrap (A 0 * B n) := rfl
    rw [h0, addtoLoop_upd_val n (fun m => i32mul (A m) (B (ssub n m)))
      (fun m => A m * B (ssub n m)) (fun m => rfl) (A 0 * B n)]
    congr 1
    rw [range_cons_range']
    simp only [List.map_cons, List.sum_cons, ssub_zero]
  have h := foldl_char _
    (fun n _ => wrap (((List.range (A_deg + 1)).map (fun m => A m * B (ssub n m))).sum))
    (List.range' (A_deg + 1) (B_deg - A_deg)) (List.nodup_range' _ _) hne hval P k
  simp only [List.mem_range'_1] at h
  exact h

lemma NP_region3_char (A B : Nat → Int) (A_deg B_deg : Nat) (P : Nat → Int) (k : Nat) :
    NP_region3 A B A_deg B_deg P k =
      if B_deg + 1 ≤ k ∧ k < B_deg + 1 + A_deg then
        wrap (((List.range' (k - B_deg) (A_deg - (k - B_deg) + 1)).map
          (fun m => A m * B (ssub k m))).sum)
      else P k := by
  have hne : ∀ (Q : Nat → Int) (n k2 : Nat), n ∈ List.range' (B_deg + 1) A_deg → k2 ≠ n →
      addtoLoop n (fun m => i32mul (A m) (B (ssub n m)))
        (List.range' (n - B_deg + 1) (A_deg - (n - B_deg)))
        (upd Q n (i32mul (A (n - B_deg)) (B B_deg))) k2 = Q k2 := by
    intro Q n k2 _ hk2
    rw [addtoLoop_ne _ _ _ _ hk2, upd_ne _ _ _ hk2]
  have hval : ∀ (Q : Nat → Int) (n : Nat), n ∈ List.range' (B_deg + 1) A_deg →
      addtoLoop n (fun m => i32mul (A m) (B (ssub n m)))
        (List.range' (n - B_deg + 1) (A_deg - (n - B_deg)))
        (upd Q n (i32mul (A (n - B_deg)) (B B_deg))) n
      = wrap (((List.range' (n - B_deg) (A_deg - (n - B_deg) + 1)).map
          (fun m => A m * B (ssub n m))).sum) := by
    intro Q n hn
    rw [List.mem_range'_1] at hn
    have h0 : i32mul (A (n - B_deg)) (B B_deg) = wrap (A (n - B_deg) * B B_deg) := rfl
    rw [h0, addtoLoop_upd_val n (fun m => i32mul (A m) (B (ssub n m)))
      (fun m => A m * B (ssub n m)) (fun m => rfl) (A (n - B_deg) * B B_deg)]
    congr 1
    rw [range'_cons]
    simp only [List.map_cons, List.sum_cons]
    have e2 : ssub n (n - B_deg) = B_deg := by
      rw [ssub_of_le (Nat.sub_le n B_deg)]
      omega
    rw [e2]
  have h := foldl_char _
    (fun n _ => wrap (((List.range' (n - B_deg) (A_deg - (n - B_deg) + 1)).map
      (fun m => A m * B (ssub n m))).sum))
    (List.range' (B_deg + 1) A_deg) (List.nodup_range' _ _) hne hval P k
  simp only [List.mem_range'_1] at h
  exact h

/-! ### Region characterizations for `Naive_AddTo_Sum_Product` -/

lemma SP_mul_eq (A0 A1 B : Nat → Int) (n m : Nat) :
    i32mul (i32add (A0 m) (A1 m)) (B (ssub n m))
      = wrap ((A0 m + A1 m) * B (ssub n m)) := by
  simp only [i32mul, i32add, wrap_mul_left]

lemma SP_region1_char (A0 A1 B : Nat → Int) (A_deg : Nat) (P : Nat → Int) (k : Nat) :
    SP_region1 A0 A1 B A_deg P k =
      if k < A_deg + 1 then
        wrap (P k + ((List.range (k + 1)).map
          (fun m => (A0 m + A1 m) * B (ssub k m))).sum)
      else P k := by
  have hne : ∀ (Q : Nat → Int) (n k2 : Nat), n ∈ List.range (A_deg + 1) → k2 ≠ n →
      addtoLoop n (fun m => i32mul (i32add (A0 m) (A1 m)) (B (ssub n m)))
        (List.range (n + 1)) Q k2 = Q k2 := by
    intro Q n k2 _ hk2
    exact addtoLoop_ne _ _ _ _ hk2
  have hval : ∀ (Q : Nat → Int) (n : Nat), n ∈ List.range (A_deg + 1) →
      addtoLoop n (fun m => i32mul (i32add (A0 m) (A1 m)) (B (ssub n m)))
        (List.range (n + 1)) Q n
      = wrap (Q n + ((List.range (n + 1)).map
          (fun m => (A0 m + A1 m) * B (ssub n m))).sum) := by
    intro Q n _
    rw [range_cons_range']
    rw [addtoLoop_val_cons n (fun m => i32mul (i32add (A0 m) (A1 m)) (B (ssub n m)))
      (fun m => (A0 m + A1 m) * B (ssub n m)) (SP_mul_eq A0 A1 B n) (List.range' 1 n) 0 Q]
  have h := foldl_char _
    (fun n x => wrap (x + ((List.range (n + 1)).map
      (fun m => (A0 m + A1 m) * B (ssub n m))).sum))
    (List.range (A_deg + 1)) (List.nodup_range _) hne hval P k
  simp only [List.mem_range] at h
  exact h

lemma SP_region2_char (A0 A1 B : Nat → Int) (A_deg B_deg : Nat) (P : Nat → Int) (k : Nat) :
    SP_region2 A0 A1 B A_deg B_deg P k =
      if A_deg + 1 ≤ k ∧ k < A_deg + 1 + (B_deg - A_deg) then
        wrap (((List.range (A_deg + 1)).map
          (fun m => (A0 m + A1 m) * B (ssub k m))).sum)
      else P k := by
  have hne : ∀ (Q : Nat → Int) (n k2 : Nat), n ∈ List.range' (A_deg + 1) (B_deg - A_deg) →
      k2 ≠ n →
      addtoLoop n (fun m => i32mul (i32add (A0 m) (A1 m)) (B (ssub n m)))
        (List.range' 1 A_deg)
        (upd Q n (i32mul (i32add (A0 0) (A1 0)) (B n))) k2 = Q k2 := by
    intro Q n k2 _ hk2
    rw [addtoLoop_ne _ _ _ _ hk2, upd_ne _ _ _ hk2]
  have hval : ∀ (Q : Nat → Int) (n : Nat), n ∈ List.range' (A_deg + 1) (B_deg - A_deg) →
      addtoLoop n (fun m => i32mul (i32add (A0 m) (A1 m)) (B (ssub n m)))
        (List.range' 1 A_deg)
        (upd Q n (i32mul (i32add (A0 0) (A1 0)) (B n))) n
      = wrap (((List.range (A_deg + 1)).map
          (fun m => (A0 m + A1 m) * B (ssub n m))).sum) := by
    intro Q n _
    have h0 : i32mul (i32add (A0 0) (A1 0)) (B n) = wrap ((A0 0 + A1 0) * B n) := by
      simp only [i32mul, i32add, wrap_mul_left]
    rw [h0, addtoLoop_upd_val n (fun m => i32mul (i32add (A0 m) (A1 m)) (B (ssub n m)))
      (fun m => (A0 m + A1 m) * B (ssub n m)) (SP_mul_eq A0 A1 B n) ((A0 0 + A1 0) * B n)]
    congr 1
    rw [range_cons_range']
    simp only [List.map_cons, List.sum_cons, ssub_zero]
  have h := foldl_char _
    (fun n _ => wrap (((List.range (A_deg + 1)).map
      (fun m => (A0 m + A1 m) * B (ssub n m))).sum))
    (List.range' (A_deg + 1) (B_deg - A_deg)) (List.nodup_range' _ _) hne hval P k
  simp only [List.mem_range'_1] at h
  exact h

lemma SP_region3_char (A0 A1 B : Nat → Int) (A_deg B_deg : Nat) (P : Nat → Int) (k : Nat) :
    SP_region3 A0 A1 B A_deg B_deg P k =
      if B_deg + 1 ≤ k ∧ k < B_deg + 1 + A_deg then
        wrap (((List.range' (k - B_deg) (A_deg - (k - B_deg) + 1)).map
          (fun m => (A0 m + A1 m) * B (ssub k m))).sum)
      else P k := by
  have hne : ∀ (Q : Nat → Int) (n k2 : Nat), n ∈ List.range' (B_deg + 1) A_deg → k2 ≠ n →
      addtoLoop n (fun m => i32mul (i32add (A0 m) (A1 m)) (B (ssub n m)))
        (List.range' (n - B_deg + 1) (A_deg - (n - B_deg)))
        (upd Q n (i32mul (i32add (A0 (n - B_deg)) (A1 (n - B_deg))) (B B_deg))) k2
        = Q k2 := by
    intro Q n k2 _ hk2
    rw [addtoLoop_ne _ _ _ _ hk2, upd_ne _ _ _ hk2]
  have hval : ∀ (Q : Nat → Int) (n : Nat), n ∈ List.range' (B_deg + 1) A_deg →
      addtoLoop n (fun m => i32mul (i32add (A0 m) (A1 m)) (B (ssub n m)))
        (List.range' (n - B_deg + 1) (A_deg - (n - B_deg)))
        (upd Q n (i32mul (i32add (A0 (n - B_deg)) (A1 (n - B_deg))) (B B_deg))) n
      = wrap (((List.range' (n - B_deg) (A_deg - (n - B_deg) + 1)).map
          (fun m => (A0 m + A1 m) * B (ssub n m))).sum) := by
    intro Q n hn
    rw [List.mem_range'_1] at hn
    have h0 : i32mul (i32add (A0 (n - B_deg)) (A1 (n - B_deg))) (B B_deg)
        = wrap ((A0 (n - B_deg) + A1 (n - B_deg)) * B B_deg) := by
      simp only [i32mul, i32add, wrap_mul_left]
    rw [h0, addtoLoop_upd_val n (fun m => i32mul (i32add (A0 m) (A1 m)) (B (ssub n m)))
      (fun m => (A0 m + A1 m) * B (ssub n m)) (SP_mul_eq A0 A1 B n)
      ((A0 (n - B_deg) + A1 (n - B_deg)) * B B_deg)]
    congr 1
    rw [range'_cons]
    simp only [List.map_cons, List.sum_cons]
    have e2 : ssub n (n - B_deg) = B_deg := by
      rw [ssub_of_le (Nat.sub_le n B_deg)]
      omega
    rw [e2]
  have h := foldl_char _
    (fun n _ => wrap (((List.range' (n - B_deg) (A_deg - (n - B_deg) + 1)).map
      (fun m => (A0 m + A1 m) * B (ssub n m))).sum))
    (List.range' (B_deg + 1) A_deg) (List.nodup_range' _ _) hne hval P k
  simp only [List.mem_range'_1] at h
  exact h

/-! ### The three region windows hit exactly the convolution window -/

lemma sum_window1 (A B : Nat → Int) (A_len B_len k : Nat)
    (hA : 1 ≤ A_len) (hB : 1 ≤ B_len) (hk1 : k ≤ A_len - 1) (hk2 : k ≤ B_len - 1) :
    ((List.range (k + 1)).map (fun m => A m * B (ssub k m))).sum
      = convSum A A_len B B_len k := by
  have e1 : ((List.range (k + 1)).map (fun m => A m * B (ssub k m))).sum
      = ((List.range' 0 (k + 1)).map (fun m => A m * B (k - m))).sum := by
    rw [List.range_eq_range']
    apply congrArg List.sum
    apply List.map_congr_left
    intro m hm
    rw [List.mem_range'_1] at hm
    rw [ssub_of_le (by omega)]
  rw [e1, sum_map_range', convSum_eq_Ico A A_len B B_len k hA hB]
  have hset : Finset.Ico 0 (0 + (k + 1))
      = Finset.Ico (k - (B_len - 1)) (min k (A_len - 1) + 1) := by
    ext i
    simp only [Finset.mem_Ico]
    omega
  rw [hset]

lemma sum_window2 (A B : Nat → Int) (A_len B_len k : Nat)
    (hA : 1 ≤ A_len) (hB : 1 ≤ B_len) (hk1 : A_len - 1 < k) (hk2 : k ≤ B_len - 1) :
    ((List.range (A_len - 1 + 1)).map (fun m => A m * B (ssub k m))).sum
      = convSum A A_len B B_len k := by
  have e1 : ((List.range (A_len - 1 + 1)).map (fun m => A m * B (ssub k m))).sum
      = ((List.range' 0 (A_len - 1 + 1)).map (fun m => A m * B (k - m))).sum := by
    rw [List.range_eq_range']
    apply congrArg List.sum
    apply List.map_congr_left
    intro m hm
    rw [List.mem_range'_1] at hm
    rw [ssub_of_le (by omega)]
  rw [e1, sum_map_range', convSum_eq_Ico A A_len B B_len k hA hB]
  have hset : Finset.Ico 0 (0 + (A_len - 1 + 1))
      = Finset.Ico (k - (B_len - 1)) (min k (A_len - 1) + 1) := by
    ext i
    simp only [Finset.mem_Ico]
    omega
  rw [hset]

lemma sum_window3 (A B : Nat → Int) (A_len B_len k : Nat)
    (hA : 1 ≤ A_len) (hB : 1 ≤ B_len) (hk1 : B_len - 1 < k) (hk2 : A_len - 1 ≤ k)
    (hk3 : k ≤ A_len - 1 + (B_len - 1)) :
    ((List.range' (k - (B_len - 1)) (A_len - 1 - (k - (B_len - 1)) + 1)).map
      (fun m => A m * B (ssub k m))).sum
      = convSum A A_len B B_len k := by
  have e1 : ((List.range' (k - (B_len - 1)) (A_len - 1 - (k - (B_len - 1)) + 1)).map
        (fun m => A m * B (ssub k m))).sum
      = ((List.range' (k - (B_len - 1)) (A_len - 1 - (k - (B_len - 1)) + 1)).map
        (fun m => A m * B (k - m))).sum := by
    apply congrArg List.sum
    apply List.map_congr_left
    intro m hm
    rw [List.mem_range'_1] at hm
    rw [ssub_of_le (by omega)]
  rw [e1, sum_map_range', convSum_eq_Ico A A_len B B_len k hA hB]
  have hset : Finset.Ico (k - (B_len - 1))
        (k - (B_len - 1) + (A_len - 1 - (k - (B_len - 1)) + 1))
      = Finset.Ico (k - (B_len - 1)) (min k (A_len - 1) + 1) := by
    ext i
    simp only [Finset.mem_Ico]
    omega
  rw [hset]

/-! ### Whole-function characterizations -/

/-- Full characterization of `Naive_Product`: provided the first operand is
at most one longer than the second (`A_len ≤ B_len + 1`), the function
overwrites indices `0 .. A_len+B_len-2` with the wrapped convolution sums
and leaves every other index untouched. -/
lemma Naive_Product_char (P A B : Nat → Int) (A_len B_len : Nat)
    (h1 : 1 ≤ A_len) (h2 : 1 ≤ B_len) (h3 : A_len ≤ B_len + 1) (k : Nat) :
    Naive_Product P A A_len B B_len k =
      if k < A_len + B_len - 1 then wrap (convSum A A_len B B_len k) else P k := by
  unfold Naive_Product
  rw [NP_region3_char, NP_region2_char, NP_region1_char]
  by_cases c3 : B_len - 1 + 1 ≤ k ∧ k < B_len - 1 + 1 + (A_len - 1)
  · rw [if_pos c3, if_pos (show k < A_len + B_len - 1 by omega)]
    congr 1
    exact sum_window3 A B A_len B_len k h1 h2 (by omega) (by omega) (by omega)
  · rw [if_neg c3]
    by_cases c2 : A_len - 1 + 1 ≤ k ∧ k < A_len - 1 + 1 + (B_len - 1 - (A_len - 1))
    · rw [if_pos c2, if_pos (show k < A_len + B_len - 1 by omega)]
      congr 1
      exact sum_window2 A B A_len B_len k h1 h2 (by omega) (by omega)
    · rw [if_neg c2]
      by_cases c1 : k < A_len - 1 + 1
      · rw [if_pos c1, if_pos (show k < A_len + B_len - 1 by omega)]
        congr 1
        exact sum_window1 A B A_len B_len k h1 h2 (by omega) (by omega)
      · rw [if_neg c1, if_neg (show ¬ k < A_len + B_len - 1 by omega)]

/-- Full characterization of `Naive_AddTo_Sum_Product` under the documented
calling convention `1 ≤ A_len ≤ B_len`: indices below `A_len` are
accumulated into, indices from `A_len` to `A_len+B_len-2` are overwritten
(regions 2 and 3 of the source assign their first term), and every other
index is untouched. -/
lemma Naive_AddTo_Sum_Product_char (P A0 A1 B : Nat → Int) (A_len B_len : Nat)
    (h1 : 1 ≤ A_len) (h3 : A_len ≤ B_len) (k : Nat) :
    Naive_AddTo_Sum_Product P A0 A1 A_len B B_len k =
      if k < A_len then
        wrap (P k + convSum (fun i => A0 i + A1 i) A_len B B_len k)
      else if k < A_len + B_len - 1 then
        wrap (convSum (fun i => A0 i + A1 i) A_len B B_len k)
      else P k := by
  have h2 : 1 ≤ B_len := le_trans h1 h3
  unfold Naive_AddTo_Sum_Product
  rw [SP_region3_char, SP_region2_char, SP_region1_char]
  by_cases c3 : B_len - 1 + 1 ≤ k ∧ k < B_len - 1 + 1 + (A_len - 1)
  · rw [if_pos c3, if_neg (show ¬ k < A_len by omega),
      if_pos (show k < A_len + B_len - 1 by omega)]
    congr 1
    exact sum_window3 (fun i => A0 i + A1 i) B A_len B_len k h1 h2
      (by omega) (by omega) (by omega)
  · rw [if_neg c3]
    by_cases c2 : A_len - 1 + 1 ≤ k ∧ k < A_len - 1 + 1 + (B_len - 1 - (A_len - 1))
    · rw [if_pos c2, if_neg (show ¬ k < A_len by omega),
        if_pos (show k < A_len + B_len - 1 by omega)]
      congr 1
      exact sum_window2 (fun i => A0 i + A1 i) B A_len B_len k h1 h2 (by omega) (by omega)
    · rw [if_neg c2]
      by_cases c1 : k < A_len - 1 + 1
      · rw [if_pos c1, if_pos (show k < A_len by omega)]
        congr 1
        congr 1
        exact sum_window1 (fun i => A0 i + A1 i) B A_len B_len k h1 h2 (by omega) (by omega)
      · rw [if_neg c1, if_neg (show ¬ k < A_len by omega),
          if_neg (show ¬ k < A_len + B_len - 1 by omega)]

/-- Full characterization of `Scaled_AddTo`. -/
lemma Scaled_AddTo_char (P A : Nat → Int) (len : Nat) (c : Int) (k : Nat) :
    Scaled_AddTo P A len c k = if k < len then wrap (P k + c * A k) else P k := by
  have hne : ∀ (Q : Nat → Int) (n k2 : Nat), n ∈ List.range len → k2 ≠ n →
      upd Q n (i32add (Q n) (i32mul c (A n))) k2 = Q k2 := by
    intro Q n k2 _ hk2
    exact upd_ne _ _ _ hk2
  have hval : ∀ (Q : Nat → Int) (n : Nat), n ∈ List.range len →
      upd Q n (i32add (Q n) (i32mul c (A n))) n = wrap (Q n + c * A n) := by
    intro Q n _
    rw [upd_same]
    show wrap (Q n + wrap (c * A n)) = wrap (Q n + c * A n)
    rw [wrap_add_right]
  have h := foldl_char _ (fun n x => wrap (x + c * A n)) (List.range len)
    (List.nodup_range _) hne hval P k
  simp only [List.mem_range] at h
  exact h

/-! ### Congruence and symmetry of the convolution sum -/

lemma convSum_congr (A A' B B' : Nat → Int) (A_len B_len n : Nat)
    (hA : ∀ i, i < A_len → A i = A' i) (hB : ∀ j, j < B_len → B j = B' j) :
    convSum A A_len B B_len n = convSum A' A_len B' B_len n := by
  unfold convSum
  apply Finset.sum_congr rfl
  intro i hi
  apply Finset.sum_congr rfl
  intro j hj
  rw [Finset.mem_range] at hi hj
  rw [hA i hi, hB j hj]

lemma convSum_comm (A B : Nat → Int) (A_len B_len n : Nat) :
    convSum A A_len B B_len n = convSum B B_len A A_len n := by
  unfold convSum
  rw [Finset.sum_comm]
  apply Finset.sum_congr rfl
  intro j _
  apply Finset.sum_congr rfl
  intro i _
  exact if_congr (by omega) (mul_comm (A i) (B j)) rfl

lemma wrap_add_mul_left (x y z : Int) : wrap (x + wrap y * z) = wrap (x + y * z) :=
  wrap_congr (Int.ModEq.add_left x (Int.ModEq.mul_right z (wrap_emod y)))

/-! ### Concrete test buffers -/

/-- The buffer [1,1] (with zeroed memory beyond). -/
def bufA0 : Nat → Int := fun k => if k = 0 then 1 else if k = 1 then 1 else 0

/-- The buffer [2,0]. -/
def bufA1 : Nat → Int := fun k => if k = 0 then 2 else 0

/-- The buffer [1,0,1]. -/
def bufB101 : Nat → Int := fun k => if k = 0 then 1 else if k = 2 then 1 else 0

/-- The buffer [1,2]. -/
def bufA12 : Nat → Int := fun k => if k = 0 then 1 else if k = 1 then 2 else 0

/-- The buffer [3,4,5]. -/
def bufB345 : Nat → Int :=
  fun k => if k = 0 then 3 else if k = 1 then 4 else if k = 2 then 5 else 0

/-- The buffer [1,1,1], with memory beyond the three entries holding 99. -/
def bufOnes3 : Nat → Int := fun k => if k < 3 then 1 else 99

/-- The buffer [1], with memory beyond its single entry holding 99. -/
def bufOne1 : Nat → Int := fun k => if k = 0 then 1 else 99

/-! ### Claim theorems -/

/-- Claim C1 (failing input): the claim states that `Naive_AddTo_Sum_Product`
adds every convolution term into the existing `P[n]` at every output index.
At A0 = [1,1], A1 = [2,0], B = [1,0,1] with the output buffer holding 1
everywhere, that contract (and the source file's own header,
`P += (A0+A1)*B`) demands the final buffer [4,2,4,2], since
(A0+A1)·B = [3,1,3,1].  The code accumulates only in region 1 (indices 0,1)
and assigns in regions 2 and 3 (indices 2,3), leaving [4,2,3,1]. -/
theorem C1_sum_product_overwrites_tail :
    Naive_AddTo_Sum_Product (fun _ => 1) bufA0 bufA1 2 bufB101 3 0 = 4 ∧
    Naive_AddTo_Sum_Product (fun _ => 1) bufA0 bufA1 2 bufB101 3 1 = 2 ∧
    Naive_AddTo_Sum_Product (fun _ => 1) bufA0 bufA1 2 bufB101 3 2 = 3 ∧
    Naive_AddTo_Sum_Product (fun _ => 1) bufA0 bufA1 2 bufB101 3 3 = 1 := by
  decide

/-- Claim C2: for `1 ≤ A_len ≤ B_len`, `Naive_Product` writes exactly the
`A_len + B_len - 1` output coefficients: every index below that bound ends
as the wrapped convolution sum regardless of the buffer's prior contents
(the buffer `P` is universally quantified), and every index at or above the
bound is untouched. -/
theorem C2_naive_product_convolution (P A B : Nat → Int) (A_len B_len : Nat)
    (h1 : 1 ≤ A_len) (h2 : A_len ≤ B_len) :
    (∀ n, n < A_len + B_len - 1 →
      Naive_Product P A A_len B B_len n = wrap (convSum A A_len B B_len n)) ∧
    (∀ k, A_len + B_len - 1 ≤ k → Naive_Product P A A_len B B_len k = P k) := by
  constructor
  · intro n hn
    rw [Naive_Product_char P A B A_len B_len h1 (le_trans h1 h2) (by omega) n, if_pos hn]
  · intro k hk
    rw [Naive_Product_char P A B A_len B_len h1 (le_trans h1 h2) (by omega) k,
      if_neg (by omega)]

/-- Witness for C2 at A = [2], B = [3,4], arbitrary initial buffer. -/
theorem C2_naive_product_convolution_witness :
    Naive_Product (fun _ => 7) (fun _ => 2) 1 (fun _ => 3) 2 0
      = wrap (convSum (fun _ => 2) 1 (fun _ => 3) 2 0) :=
  (C2_naive_product_convolution (fun _ => 7) (fun _ => 2) (fun _ => 3) 1 2
    (by decide) (by decide)).1 0 (by decide)

/-- Claim C3: for `1 ≤ A_len ≤ B_len` every access of both kernels is in
range.  Writes: every output-buffer index at or beyond `A_len + B_len - 1`
is left unchanged by both functions.  Reads: the outputs depend only on the
first `A_len` entries of `A` (respectively `A0`, `A1`), the first `B_len`
entries of `B`, and (for the sum-product kernel) the first `A_len` entries
of the prior output buffer — changing any buffer outside those prefixes
cannot change the result. -/
theorem C3_bounds_safety (P P' A A' A0 A0' A1 A1' B B' : Nat → Int) (A_len B_len : Nat)
    (h1 : 1 ≤ A_len) (h2 : A_len ≤ B_len) :
    (∀ k, A_len + B_len - 1 ≤ k → Naive_Product P A A_len B B_len k = P k) ∧
    (∀ k, A_len + B_len - 1 ≤ k →
      Naive_AddTo_Sum_Product P A0 A1 A_len B B_len k = P k) ∧
    ((∀ i, i < A_len → A i = A' i) → (∀ j, j < B_len → B j = B' j) →
      ∀ k, Naive_Product P A A_len B B_len k = Naive_Product P A' A_len B' B_len k) ∧
    ((∀ i, i < A_len → A0 i = A0' i) → (∀ i, i < A_len → A1 i = A1' i) →
      (∀ j, j < B_len → B j = B' j) →
      ∀ k, Naive_AddTo_Sum_Product P A0 A1 A_len B B_len k
        = Naive_AddTo_Sum_Product P A0' A1' A_len B' B_len k) ∧
    ((∀ i, i < A_len → P i = P' i) →
      ∀ k, k < A_len + B_len - 1 →
        Naive_AddTo_Sum_Product P A0 A1 A_len B B_len k
          = Naive_AddTo_Sum_Product P' A0 A1 A_len B B_len k) := by
  have h2' : 1 ≤ B_len := le_trans h1 h2
  refine ⟨?_, ?_, ?_, ?_, ?_⟩
  · intro k hk
    rw [Naive_Product_char P A B A_len B_len h1 h2' (by omega) k, if_neg (by omega)]
  · intro k hk
    rw [Naive_AddTo_Sum_Product_char P A0 A1 B A_len B_len h1 h2 k,
      if_neg (by omega), if_neg (by omega)]
  · intro hA hB k
    rw [Naive_Product_char P A B A_len B_len h1 h2' (by omega) k,
      Naive_Product_char P A' B' A_len B_len h1 h2' (by omega) k]
    by_cases hk : k < A_len + B_len - 1
    · rw [if_pos hk, if_pos hk, convSum_congr A A' B B' A_len B_len k hA hB]
    · rw [if_neg hk, if_neg hk]
  · intro hA0 hA1 hB k
    rw [Naive_AddTo_Sum_Product_char P A0 A1 B A_len B_len h1 h2 k,
      Naive_AddTo_Sum_Product_char P A0' A1' B' A_len B_len h1 h2 k]
    have hS : convSum (fun i => A0 i + A1 i) A_len B B_len k
        = convSum (fun i => A0' i + A1' i) A_len B' B_len k := by
      apply convSum_congr
      · intro i hi
        rw [hA0 i hi, hA1 i hi]
      · exact hB
    by_cases hk1 : k < A_len
    · rw [if_pos hk1, if_pos hk1, hS]
    · rw [if_neg hk1, if_neg hk1]
      by_cases hk2 : k < A_len + B_len - 1
      · rw [if_pos hk2, if_pos hk2, hS]
      · rw [if_neg hk2, if_neg hk2]
  · intro hP k hk
    rw [Naive_AddTo_Sum_Product_char P A0 A1 B A_len B_len h1 h2 k,
      Naive_AddTo_Sum_Product_char P' A0 A1 B A_len B_len h1 h2 k]
    by_cases hk1 : k < A_len
    · rw [if_pos hk1, if_pos hk1, hP k hk1]
    · rw [if_neg hk1, if_neg hk1, if_pos (by omega), if_pos (by omega)]

/-- Witness for C3: an index two past the end of the written range is
untouched by `Naive_Product`. -/
theorem C3_bounds_safety_witness :
    Naive_Product (fun _ => 7) (fun _ => 1) 1 (fun _ => 4) 1 5 = 7 :=
  (C3_bounds_safety (fun _ => 7) (fun _ => 12) (fun _ => 1) (fun _ => 23) (fun _ => 34)
    (fun _ => 45) (fun _ => 56) (fun _ => 67) (fun _ => 4) (fun _ => 89) 1 1
    (by decide) (by decide)).1 5 (by decide)

/-- Claim C4 (counterexample): on A0 = [1,1], A1 = [2,0], B = [1,0,1] and a
zero-initialized buffer of length 4, `Naive_AddTo_Sum_Product` does not
yield [3,3,3,3]: the coefficient at index 1 is 1, not 3. -/
theorem C4_counterexample :
    Naive_AddTo_Sum_Product (fun _ => 0) bufA0 bufA1 2 bufB101 3 1 ≠ 3 := by
  decide

/-- Claim C4 (amended): on A0 = [1,1], A1 = [2,0], B = [1,0,1] and a
zero-initialized buffer of length 4, `Naive_AddTo_Sum_Product` yields
[3,1,3,1], the convolution of A0+A1 = [3,1] with B. -/
theorem C4_amended_value :
    Naive_AddTo_Sum_Product (fun _ => 0) bufA0 bufA1 2 bufB101 3 0 = 3 ∧
    Naive_AddTo_Sum_Product (fun _ => 0) bufA0 bufA1 2 bufB101 3 1 = 1 ∧
    Naive_AddTo_Sum_Product (fun _ => 0) bufA0 bufA1 2 bufB101 3 2 = 3 ∧
    Naive_AddTo_Sum_Product (fun _ => 0) bufA0 bufA1 2 bufB101 3 3 = 1 := by
  decide

/-- Claim C5: on A = [1,2], B = [3,4,5], `Naive_Product` yields
[3,10,13,10] (computed here from an arbitrary nonzero initial buffer to
show the prior contents are irrelevant). -/
theorem C5_naive_product_example :
    Naive_Product (fun _ => 99) bufA12 2 bufB345 3 0 = 3 ∧
    Naive_Product (fun _ => 99) bufA12 2 bufB345 3 1 = 10 ∧
    Naive_Product (fun _ => 99) bufA12 2 bufB345 3 2 = 13 ∧
    Naive_Product (fun _ => 99) bufA12 2 bufB345 3 3 = 10 := by
  decide

/-- Claim C6 (counterexample): calling `Naive_Product` with the longer
operand first is not equivalent to the documented order.  With A = [1,1,1]
(length 3) and B = [1] (length 1), where memory beyond each buffer holds
99, the out-of-order call reads `B` at the wrapped `size_t` index
`1 - 2 = 2^64 - 1` in region 3 and produces 100 at output index 1, while
the in-order call produces the correct coefficient 1. -/
theorem C6_counterexample :
    Naive_Product (fun _ => 0) bufOnes3 3 bufOne1 1 1
      ≠ Naive_Product (fun _ => 0) bufOne1 1 bufOnes3 3 1 := by
  decide

/-- Claim C6 (amended): the two operand orders of `Naive_Product` agree on
the whole output range whenever the operand lengths differ by at most one
(so that region 3 of the out-of-order call never reads past a buffer
end). -/
theorem C6_amended_comm (P A B : Nat → Int) (A_len B_len : Nat)
    (h1 : 1 ≤ A_len) (h2 : 1 ≤ B_len) (h3 : A_len ≤ B_len + 1) (h4 : B_len ≤ A_len + 1) :
    ∀ k, k < A_len + B_len - 1 →
      Naive_Product P A A_len B B_len k = Naive_Product P B B_len A A_len k := by
  intro k hk
  rw [Naive_Product_char P A B A_len B_len h1 h2 h3 k,
    Naive_Product_char P B A B_len A_len h2 h1 h4 k,
    if_pos hk, if_pos (show k < B_len + A_len - 1 by omega), convSum_comm]

/-- Witness for the amended C6 at lengths 2 and 1. -/
theorem C6_amended_comm_witness :
    Naive_Product (fun _ => 0) (fun _ => 2) 2 (fun _ => 3) 1 0
      = Naive_Product (fun _ => 0) (fun _ => 3) 1 (fun _ => 2) 2 0 :=
  C6_amended_comm (fun _ => 0) (fun _ => 2) (fun _ => 3) 2 1
    (by decide) (by decide) (by decide) (by decide) 0 (by decide)

/-- Claim C7 (counterexample): with wrapping 32-bit arithmetic the leading
output coefficient can be zero even though both leading input coefficients
are nonzero: 65536 · 65536 = 2^32 wraps to 0. -/
theorem C7_counterexample :
    (65536 : Int) ≠ 0 ∧
    Naive_Product (fun _ => 0) (fun _ => 65536) 1 (fun _ => 65536) 1 0 = 0 := by
  decide

/-- Claim C7 (amended): the last output coefficient of `Naive_Product` is
nonzero provided the product of the two leading coefficients is not a
multiple of 2^32 — in particular whenever it is nonzero and does not
overflow; wraparound is the only way it can vanish. -/
theorem C7_amended_degree (P A B : Nat → Int) (A_len B_len : Nat)
    (h1 : 1 ≤ A_len) (h2 : A_len ≤ B_len)
    (h5 : ¬ (4294967296 : Int) ∣ A (A_len - 1) * B (B_len - 1)) :
    Naive_Product P A A_len B B_len (A_len + B_len - 2) ≠ 0 := by
  have h2' : 1 ≤ B_len := le_trans h1 h2
  have etop : convSum A A_len B B_len (A_len + B_len - 2)
      = A (A_len - 1) * B (B_len - 1) := by
    rw [convSum_eq_Ico A A_len B B_len _ h1 h2']
    have hset : Finset.Ico ((A_len + B_len - 2) - (B_len - 1))
          (min (A_len + B_len - 2) (A_len - 1) + 1)
        = Finset.Ico (A_len - 1) (A_len - 1 + 1) := by
      ext i
      simp only [Finset.mem_Ico]
      omega
    rw [hset, Nat.Ico_succ_singleton, Finset.sum_singleton]
    have e : (A_len + B_len - 2) - (A_len - 1) = B_len - 1 := by omega
    rw [e]
  rw [Naive_Product_char P A B A_len B_len h1 h2' (by omega) _,
    if_pos (by omega), etop]
  intro hcontra
  rw [wrap_eq_zero_iff] at hcontra
  exact h5 hcontra

/-- Witness for the amended C7 at A = [1], B = [1]. -/
theorem C7_amended_degree_witness :
    Naive_Product (fun _ => 0) (fun _ => 1) 1 (fun _ => 1) 1 0 ≠ 0 :=
  C7_amended_degree (fun _ => 0) (fun _ => 1) (fun _ => 1) 1 1
    (by decide) (by decide) (by decide)

/-- Claim C8: `Scaled_AddTo` adds `c·A[n]` (wrapped) into `P[n]` for every
`n` below `len`, leaves every other entry unchanged, and is a no-op for
`len = 0`. -/
theorem C8_scaled_accumulate_contract (P A : Nat → Int) (len : Nat) (c : Int) :
    (∀ n, n < len → Scaled_AddTo P A len c n = wrap (P n + c * A n)) ∧
    (∀ k, len ≤ k → Scaled_AddTo P A len c k = P k) ∧
    Scaled_AddTo P A 0 c = P := by
  refine ⟨?_, ?_, rfl⟩
  · intro n hn
    rw [Scaled_AddTo_char, if_pos hn]
  · intro k hk
    rw [Scaled_AddTo_char, if_neg (by omega)]

/-- Witness for C8 at P = [5], A = [3], c = 2. -/
theorem C8_scaled_accumulate_contract_witness :
    Scaled_AddTo (fun _ => 5) (fun _ => 3) 1 2 0 = wrap (5 + 2 * 3) :=
  (C8_scaled_accumulate_contract (fun _ => 5) (fun _ => 3) 1 2).1 0 (by decide)

/-- Claim C9: two consecutive calls of `Scaled_AddTo` with scalars `c1` and
`c2` leave the buffer exactly as a single call with the wrapped scalar sum
`c1 + c2` does, for all buffers, lengths and scalars. -/
theorem C9_scaled_accumulate_linear (P A : Nat → Int) (len : Nat) (c1 c2 : Int) :
    Scaled_AddTo (Scaled_AddTo P A len c1) A len c2
      = Scaled_AddTo P A len (i32add c1 c2) := by
  funext k
  rw [Scaled_AddTo_char, Scaled_AddTo_char, Scaled_AddTo_char]
  by_cases hk : k < len
  · rw [if_pos hk, if_pos hk, if_pos hk, wrap_add_left]
    have e0 : i32add c1 c2 = wrap (c1 + c2) := rfl
    rw [e0, wrap_add_mul_left]
    apply wrap_congr
    have e : P k + c1 * A k + c2 * A k = P k + (c1 + c2) * A k := by ring
    rw [e]
  · rw [if_neg hk, if_neg hk, if_neg hk]

/-- Claim C10: for `1 ≤ A_len ≤ B_len` the written range of the
`Naive_Product` output is a function of `A` and `B` alone: any two initial
buffer contents produce identical values at every output index. -/
theorem C10_output_independent_of_initial (P P' A B : Nat → Int) (A_len B_len : Nat)
    (h1 : 1 ≤ A_len) (h2 : A_len ≤ B_len) :
    ∀ k, k < A_len + B_len - 1 →
      Naive_Product P A A_len B B_len k = Naive_Product P' A A_len B B_len k := by
  intro k hk
  rw [Naive_Product_char P A B A_len B_len h1 (le_trans h1 h2) (by omega) k,
    Naive_Product_char P' A B A_len B_len h1 (le_trans h1 h2) (by omega) k,
    if_pos hk, if_pos hk]

/-- Witness for C10 with initial buffers 11 and 22. -/
theorem C10_output_independent_of_initial_witness :
    Naive_Product (fun _ => 11) (fun _ => 1) 1 (fun _ => 1) 1 0
      = Naive_Product (fun _ => 22) (fun _ => 1) 1 (fun _ => 1) 1 0 :=
  C10_output_independent_of_initial (fun _ => 11) (fun _ => 22) (fun _ => 1) (fun _ => 1)
    1 1 (by decide) (by decide) 0 (by decide)

end PolyMul
